import Mathlib

/-!
Shallow embedding of `src/main.ino`, an Arduino implementation of Conway's
Game of Life on an 8x8 LED matrix, together with theorems checking the
specification's claims against this embedding.

The grid dimensions are the source's constants `ROWS = COLS = 8`; the literal
`8` (and `Fin 8` for in-bounds coordinates) is used throughout.
-/

namespace GOL

/-- `bool world[ROWS][COLS]`: the 8x8 grid of cell liveness. -/
abbrev Grid := Fin 8 → Fin 8 → Bool

/-- The row-index wrap from `countNeighbors`: `int y = i >= 0 ? i % ROWS : ROWS - 1;`. -/
def wrapRow (i : Int) : Int := if 0 ≤ i then i % 8 else 7

/-- The column-index wrap from `countNeighbors`: `int x = j >= 0 ? j % COLS : COLS - 1;`. -/
def wrapCol (j : Int) : Int := if 0 ≤ j then j % 8 else 7

/-- Reading `world[y][x]` with `int` indices; an out-of-bounds read returns
`none` (the C array access would be undefined behaviour there). -/
def worldAt (w : Grid) (y x : Int) : Option Bool :=
  if hy : 0 ≤ y ∧ y < 8 then
    if hx : 0 ≤ x ∧ x < 8 then some (w ⟨y.toNat, by omega⟩ ⟨x.toNat, by omega⟩)
    else none
  else none

/-- One iteration of the inner loop body of `countNeighbors`: skip the centre
cell, otherwise add `world[y][x]` (at the wrapped indices) to the accumulator. -/
def cnStep (w : Grid) (r c i j : Int) (acc : Option Nat) : Option Nat :=
  if i = r ∧ j = c then acc
  else acc.bind fun n => (worldAt w (wrapRow i) (wrapCol j)).map fun b => n + b.toNat

/-- `countNeighbors(r, c)`: the two nested loops `i = r-1 .. r+1`,
`j = c-1 .. c+1` accumulating into `neighbors`, starting from `0`. -/
def countNeighbors (w : Grid) (r c : Int) : Option Nat :=
  [r - 1, r, r + 1].foldl
    (fun acc i => [c - 1, c, c + 1].foldl (fun acc2 j => cnStep w r c i j acc2) acc)
    (some 0)

/-- The `switch (countNeighbors(r, c))` body of `updateWorld`:
`case 2`: keep the current state; `case 3`: alive; `default`: dead. -/
def nextState (cur : Bool) (n : Nat) : Bool :=
  match n with
  | 2 => cur
  | 3 => true
  | _ => false

/-- The value `updateWorld` stores into `nextWorld[r][c]`, read off the
current (not yet modified) grid.  A failed neighbour read (which cannot
occur) falls to the `default` branch of the switch, i.e. dead. -/
def transition (w : Grid) (r c : Fin 8) : Bool :=
  match countNeighbors w (r.val : Int) (c.val : Int) with
  | some n => nextState (w r c) n
  | none => false

/-- Writing a single cell of a grid. -/
def updateGrid (w : Grid) (r c : Fin 8) (v : Bool) : Grid :=
  fun r2 c2 => if r2 = r ∧ c2 = c then v else w r2 c2

/-- All 64 cell coordinates in the row-major order of the `for` loops. -/
def allPairs : List (Fin 8 × Fin 8) :=
  (List.finRange 8).flatMap fun r => (List.finRange 8).map fun c => (r, c)

/-- Writing `f r c` into buffer `b` at every coordinate of `l`, in order. -/
def writeAll (f : Fin 8 → Fin 8 → Bool) : List (Fin 8 × Fin 8) → Grid → Grid
  | [], b => b
  | p :: rest, b => writeAll f rest (updateGrid b p.1 p.2 (f p.1 p.2))

/-- `updateWorld()`: fill the separate buffer `nextWorld` (initially all
`false`) from the unchanged `world`, then copy the buffer back into `world`. -/
def updateWorld (w : Grid) : Grid :=
  let nextWorld : Grid := writeAll (fun r c => transition w r c) allPairs fun _ _ => false
  writeAll (fun r c => nextWorld r c) allPairs w

/-- The four canonical Game of Life rules from the source's header comment:
a live cell survives exactly with two or three live neighbours (dying of
under- or overpopulation otherwise), a dead cell is born with exactly three. -/
def canonicalRule (cur : Bool) (n : Nat) : Bool :=
  if cur then decide (n = 2 ∨ n = 3) else decide (n = 3)

/-- A wrapped coordinate in the specification's sense: the index taken
modulo 8 (so index `-1` wraps to `7` and index `8` wraps to `0`). -/
def wrapSpec (i : Int) : Fin 8 := ⟨(i % 8).toNat, by omega⟩

/-- The in-bounds row index `y` actually used by `countNeighbors`. -/
def finWrapRow (i : Int) : Fin 8 :=
  ⟨(wrapRow i).toNat, by unfold wrapRow; split <;> omega⟩

/-- The in-bounds column index `x` actually used by `countNeighbors`. -/
def finWrapCol (j : Int) : Fin 8 :=
  ⟨(wrapCol j).toNat, by unfold wrapCol; split <;> omega⟩

/-- A single `digitalWrite` to a row line or a column line (`true` = HIGH). -/
inductive Wr where
  | row : Fin 8 → Bool → Wr
  | col : Fin 8 → Bool → Wr
deriving DecidableEq

/-- The levels of the 8 row lines and the 8 column lines (`true` = HIGH). -/
@[ext]
structure Pins where
  rows : Fin 8 → Bool
  cols : Fin 8 → Bool

/-- Effect of one write on the pin levels. -/
def applyWr (s : Pins) : Wr → Pins
  | .row r lv => ⟨fun r2 => if r2 = r then lv else s.rows r2, s.cols⟩
  | .col c lv => ⟨s.rows, fun c2 => if c2 = c then lv else s.cols c2⟩

/-- Writes of one inner-loop iteration of `dispWorld`: pull the column LOW
when the cell is alive, then (unconditionally) drive it back HIGH. -/
def colWrites (w : Grid) (r c : Fin 8) : List Wr :=
  (if w r c then [Wr.col c false] else []) ++ [Wr.col c true]

/-- Writes of one outer-loop iteration of `dispWorld`: row HIGH, scan the 8
columns, row LOW. -/
def rowWrites (w : Grid) (r : Fin 8) : List Wr :=
  Wr.row r true :: ((List.finRange 8).flatMap (colWrites w r) ++ [Wr.row r false])

/-- `dispWorld()`: the full sequence of pin writes of one invocation. -/
def dispWorld (w : Grid) : List Wr :=
  (List.finRange 8).flatMap (rowWrites w)

/-- Pin levels established by `setup()`: all rows LOW, all columns HIGH. -/
def startPins : Pins := ⟨fun _ => false, fun _ => true⟩

/-- All pin states visited while performing a list of writes, including the
state before the first write and the one after the last. -/
def traceFrom (s : Pins) : List Wr → List Pins
  | [] => [s]
  | wr :: rest => s :: traceFrom (applyWr s wr) rest

/-- Pin state inside the active window of row `r`, between column writes. -/
def rowActive (r : Fin 8) : Pins :=
  ⟨fun r2 => if r2 = r then true else false, fun _ => true⟩

/-- The multiplexing invariant: at most one row line is HIGH, and a column
line is LOW only when some row line is HIGH and the cell at that row and
column is alive. -/
def scanInv (w : Grid) (s : Pins) : Prop :=
  (∀ r1 r2, s.rows r1 = true → s.rows r2 = true → r1 = r2) ∧
  (∀ c, s.cols c = false → ∃ r, s.rows r = true ∧ w r c = true)

/-- The global mutable state of the sketch: `world`, `lastTime`, `paused`,
`step`. -/
structure SysState where
  world : Grid
  lastTime : Nat
  paused : Bool
  step : Bool

/-- `togglePause()`, the pause-button interrupt handler. -/
def togglePause (s : SysState) : SysState := { s with paused := !s.paused }

/-- `setStep()`, the step-button interrupt handler. -/
def setStep (s : SysState) : SysState :=
  if s.paused then { s with step := true } else s

/-- One execution of `loop()` with `millis()` returning `time`: when at least
one second has elapsed (32-bit unsigned arithmetic), reset `lastTime` and
advance the world — unconditionally.  `dispWorld()` and `delay(5)` do not
change this state.  Note that `paused` and `step` are never read here. -/
def loop (time : Nat) (s : SysState) : SysState :=
  if 1000 ≤ (time - s.lastTime) % 4294967296 then
    { s with lastTime := time, world := updateWorld s.world }
  else s

/-- The all-dead grid. -/
def deadGrid : Grid := fun _ _ => false

/-- A single live cell at (0, 0), all other cells dead. -/
def oneCell : Grid := fun r c => decide (r = 0 ∧ c = 0)

/-- The 2x2 all-alive block at rows 3-4, columns 3-4, all other cells dead. -/
def block : Grid :=
  fun r c => decide ((r.val, c.val) ∈ [(3, 3), (3, 4), (4, 3), (4, 4)])

/-- The standard 5-cell glider, in the top-left corner. -/
def glider : Grid :=
  fun r c => decide ((r.val, c.val) ∈ [(0, 1), (1, 2), (2, 0), (2, 1), (2, 2)])

/-- The glider grid one generation in. -/
def gliderGen1 : Grid :=
  fun r c => decide ((r.val, c.val) ∈ [(1, 0), (1, 2), (2, 1), (2, 2), (3, 1)])

/-- The glider grid two generations in. -/
def gliderGen2 : Grid :=
  fun r c => decide ((r.val, c.val) ∈ [(1, 2), (2, 0), (2, 2), (3, 1), (3, 2)])

/-- The glider grid three generations in. -/
def gliderGen3 : Grid :=
  fun r c => decide ((r.val, c.val) ∈ [(1, 1), (2, 2), (2, 3), (3, 1), (3, 2)])

/-- A paused scheduler state holding `oneCell`, with no step requested. -/
def pausedNoStep : SysState := ⟨oneCell, 0, true, false⟩

/-- A paused scheduler state holding `oneCell`, with a step requested. -/
def pausedWithStep : SysState := ⟨oneCell, 0, true, true⟩

section Lemmas

lemma wrapRow_nonneg (i : Int) : 0 ≤ wrapRow i := by
  unfold wrapRow; split <;> omega

lemma wrapRow_lt (i : Int) : wrapRow i < 8 := by
  unfold wrapRow; split <;> omega

lemma wrapCol_nonneg (j : Int) : 0 ≤ wrapCol j := by
  unfold wrapCol; split <;> omega

lemma wrapCol_lt (j : Int) : wrapCol j < 8 := by
  unfold wrapCol; split <;> omega

lemma worldAt_wrap (w : Grid) (i j : Int) :
    worldAt w (wrapRow i) (wrapCol j) = some (w (finWrapRow i) (finWrapCol j)) := by
  rw [worldAt, dif_pos ⟨wrapRow_nonneg i, wrapRow_lt i⟩,
    dif_pos ⟨wrapCol_nonneg j, wrapCol_lt j⟩]
  rfl

lemma cnStep_some (w : Grid) (r c i j : Int) (n : Nat) :
    cnStep w r c i j (some n) =
      if i = r ∧ j = c then some n
      else some (n + (w (finWrapRow i) (finWrapCol j)).toNat) := by
  rw [cnStep]
  split
  · rfl
  · rw [worldAt_wrap]; rfl

/-- Evaluation of `countNeighbors`: it always succeeds, returning the sum of
the eight (wrapped) neighbour cells, in loop order. -/
lemma countNeighbors_eq (w : Grid) (r c : Int) :
    countNeighbors w r c = some (
      (w (finWrapRow (r - 1)) (finWrapCol (c - 1))).toNat +
      (w (finWrapRow (r - 1)) (finWrapCol c)).toNat +
      (w (finWrapRow (r - 1)) (finWrapCol (c + 1))).toNat +
      (w (finWrapRow r) (finWrapCol (c - 1))).toNat +
      (w (finWrapRow r) (finWrapCol (c + 1))).toNat +
      (w (finWrapRow (r + 1)) (finWrapCol (c - 1))).toNat +
      (w (finWrapRow (r + 1)) (finWrapCol c)).toNat +
      (w (finWrapRow (r + 1)) (finWrapCol (c + 1))).toNat) := by
  have h1 : ¬(r - 1 = r) := by omega
  have h2 : ¬(r + 1 = r) := by omega
  have h3 : ¬(c - 1 = c) := by omega
  have h4 : ¬(c + 1 = c) := by omega
  simp [countNeighbors, cnStep_some, h1, h2, h3, h4]

lemma finWrapRow_val (i : Int) : (finWrapRow i).val = (wrapRow i).toNat := rfl

lemma finWrapCol_val (j : Int) : (finWrapCol j).val = (wrapCol j).toNat := rfl

lemma finWrapRow_eq_spec (i : Int) (h : -1 ≤ i) : finWrapRow i = wrapSpec i := by
  apply Fin.ext
  rw [finWrapRow_val]
  show (wrapRow i).toNat = (i % 8).toNat
  unfold wrapRow
  split <;> omega

lemma finWrapCol_eq_spec (j : Int) (h : -1 ≤ j) : finWrapCol j = wrapSpec j := by
  apply Fin.ext
  rw [finWrapCol_val]
  show (wrapCol j).toNat = (j % 8).toNat
  unfold wrapCol
  split <;> omega

lemma finWrapRow_self (r : Fin 8) : finWrapRow (r.val : Int) = r := by
  have h8 := r.isLt
  apply Fin.ext
  rw [finWrapRow_val]
  unfold wrapRow
  split <;> omega

lemma finWrapCol_self (c : Fin 8) : finWrapCol (c.val : Int) = c := by
  have h8 := c.isLt
  apply Fin.ext
  rw [finWrapCol_val]
  unfold wrapCol
  split <;> omega

lemma finWrapRow_sub_ne (r : Fin 8) : finWrapRow ((r.val : Int) - 1) ≠ r := by
  have h8 := r.isLt
  intro he
  have hv := congrArg Fin.val he
  rw [finWrapRow_val] at hv
  unfold wrapRow at hv
  split at hv <;> omega

lemma finWrapRow_add_ne (r : Fin 8) : finWrapRow ((r.val : Int) + 1) ≠ r := by
  have h8 := r.isLt
  intro he
  have hv := congrArg Fin.val he
  rw [finWrapRow_val] at hv
  unfold wrapRow at hv
  split at hv <;> omega

lemma finWrapCol_sub_ne (c : Fin 8) : finWrapCol ((c.val : Int) - 1) ≠ c := by
  have h8 := c.isLt
  intro he
  have hv := congrArg Fin.val he
  rw [finWrapCol_val] at hv
  unfold wrapCol at hv
  split at hv <;> omega

lemma finWrapCol_add_ne (c : Fin 8) : finWrapCol ((c.val : Int) + 1) ≠ c := by
  have h8 := c.isLt
  intro he
  have hv := congrArg Fin.val he
  rw [finWrapCol_val] at hv
  unfold wrapCol at hv
  split at hv <;> omega

lemma mem_allPairs (r c : Fin 8) : (r, c) ∈ allPairs := by
  simp [allPairs]

lemma writeAll_eq (f : Fin 8 → Fin 8 → Bool) (l : List (Fin 8 × Fin 8))
    (b : Grid) (r c : Fin 8) :
    writeAll f l b r c = if (r, c) ∈ l then f r c else b r c := by
  induction l generalizing b with
  | nil => simp [writeAll]
  | cons p rest ih =>
    rw [writeAll, ih]
    by_cases hm : (r, c) ∈ rest
    · simp [hm]
    · by_cases hp : (r, c) = p
      · have h1 : r = p.1 := by rw [← hp]
        have h2 : c = p.2 := by rw [← hp]
        subst h1
        subst h2
        simp [hm, updateGrid]
      · have hne : ¬(r = p.1 ∧ c = p.2) := by
          intro hand
          exact hp (Prod.ext hand.1 hand.2)
        simp [hm, hp, updateGrid, hne]

lemma self_mem_traceFrom (s : Pins) (l : List Wr) : s ∈ traceFrom s l := by
  cases l <;> simp [traceFrom]

lemma mem_traceFrom_append (p : Pins) (l1 : List Wr) :
    ∀ (s : Pins) (l2 : List Wr),
      p ∈ traceFrom s (l1 ++ l2) ↔
        p ∈ traceFrom s l1 ∨ p ∈ traceFrom (l1.foldl applyWr s) l2 := by
  induction l1 with
  | nil =>
    intro s l2
    simp only [List.nil_append, traceFrom, List.foldl_nil, List.mem_singleton]
    constructor
    · exact Or.inr
    · rintro (rfl | h)
      · exact self_mem_traceFrom _ l2
      · exact h
  | cons a l1 ih =>
    intro s l2
    have hc : traceFrom s ((a :: l1) ++ l2) = s :: traceFrom (applyWr s a) (l1 ++ l2) := rfl
    have hc2 : traceFrom s (a :: l1) = s :: traceFrom (applyWr s a) l1 := rfl
    rw [hc, hc2, List.foldl_cons]
    simp only [List.mem_cons, ih, or_assoc]

lemma rowActive_rows_eq (r r1 : Fin 8) (h : (rowActive r).rows r1 = true) : r1 = r := by
  by_cases hr : r1 = r
  · exact hr
  · simp [rowActive, hr] at h

/-- Any pin state whose row lines agree with `rowActive r` satisfies the scan
invariant as soon as every LOW column corresponds to a live cell in row `r`. -/
lemma scanInv_rowLike (w : Grid) (r : Fin 8) (cols : Fin 8 → Bool)
    (hcols : ∀ c, cols c = false → w r c = true) :
    scanInv w ⟨(rowActive r).rows, cols⟩ := by
  constructor
  · intro r1 r2 h1 h2
    rw [rowActive_rows_eq r r1 h1, rowActive_rows_eq r r2 h2]
  · intro c hc
    exact ⟨r, by simp [rowActive], hcols c hc⟩

lemma scanInv_rowActive (w : Grid) (r : Fin 8) : scanInv w (rowActive r) :=
  scanInv_rowLike w r _ (fun c hc => by simp [rowActive] at hc)

lemma scanInv_startPins (w : Grid) : scanInv w startPins := by
  constructor
  · intro r1 r2 h1 h2
    simp [startPins] at h1
  · intro c hc
    simp [startPins] at hc

lemma colWrites_dead (w : Grid) (r c : Fin 8) (hw : w r c = false) :
    colWrites w r c = [Wr.col c true] := by
  simp [colWrites, hw]

lemma colWrites_alive (w : Grid) (r c : Fin 8) (hw : w r c = true) :
    colWrites w r c = [Wr.col c false, Wr.col c true] := by
  simp [colWrites, hw]

lemma foldl_colWrites (w : Grid) (r c : Fin 8) :
    (colWrites w r c).foldl applyWr (rowActive r) = rowActive r := by
  cases hw : w r c
  · rw [colWrites_dead w r c hw]
    show applyWr (rowActive r) (Wr.col c true) = rowActive r
    apply Pins.ext
    · rfl
    · funext c2
      by_cases hc2 : c2 = c <;> simp [applyWr, rowActive, hc2]
  · rw [colWrites_alive w r c hw]
    show applyWr (applyWr (rowActive r) (Wr.col c false)) (Wr.col c true) = rowActive r
    apply Pins.ext
    · rfl
    · funext c2
      by_cases hc2 : c2 = c <;> simp [applyWr, rowActive, hc2]

lemma scanInv_of_mem_colWrites (w : Grid) (r c : Fin 8) (p : Pins)
    (hp : p ∈ traceFrom (rowActive r) (colWrites w r c)) : scanInv w p := by
  cases hw : w r c
  · rw [colWrites_dead w r c hw] at hp
    have htr : traceFrom (rowActive r) [Wr.col c true] =
        [rowActive r, applyWr (rowActive r) (Wr.col c true)] := rfl
    rw [htr] at hp
    simp only [List.mem_cons, List.not_mem_nil, or_false] at hp
    rcases hp with rfl | rfl
    · exact scanInv_rowActive w r
    · refine scanInv_rowLike w r _ ?_
      intro c2 hc2
      by_cases h : c2 = c <;> simp [applyWr, rowActive, h] at hc2
  · rw [colWrites_alive w r c hw] at hp
    have htr : traceFrom (rowActive r) [Wr.col c false, Wr.col c true] =
        [rowActive r, applyWr (rowActive r) (Wr.col c false),
          applyWr (applyWr (rowActive r) (Wr.col c false)) (Wr.col c true)] := rfl
    rw [htr] at hp
    simp only [List.mem_cons, List.not_mem_nil, or_false] at hp
    rcases hp with rfl | rfl | rfl
    · exact scanInv_rowActive w r
    · refine scanInv_rowLike w r _ ?_
      intro c2 hc2
      by_cases h : c2 = c
      · rw [h]
        exact hw
      · simp [applyWr, rowActive, h] at hc2
    · refine scanInv_rowLike w r _ ?_
      intro c2 hc2
      by_cases h : c2 = c <;> simp [applyWr, rowActive, h] at hc2

lemma colLoop_trace (w : Grid) (r : Fin 8) (cs : List (Fin 8)) :
    (cs.flatMap (colWrites w r)).foldl applyWr (rowActive r) = rowActive r ∧
    ∀ p ∈ traceFrom (rowActive r) (cs.flatMap (colWrites w r)), scanInv w p := by
  induction cs with
  | nil =>
    refine ⟨rfl, ?_⟩
    intro p hp
    simp only [List.flatMap_nil, traceFrom, List.mem_singleton] at hp
    subst hp
    exact scanInv_rowActive w r
  | cons c cs ih =>
    rw [List.flatMap_cons]
    constructor
    · rw [List.foldl_append, foldl_colWrites]
      exact ih.1
    · intro p hp
      rw [mem_traceFrom_append] at hp
      rcases hp with hp | hp
      · exact scanInv_of_mem_colWrites w r c p hp
      · rw [foldl_colWrites] at hp
        exact ih.2 p hp

lemma applyWr_start_row (r : Fin 8) : applyWr startPins (Wr.row r true) = rowActive r := by
  apply Pins.ext
  · funext r2
    by_cases h : r2 = r <;> simp [applyWr, rowActive, startPins, h]
  · rfl

lemma applyWr_row_off (r : Fin 8) : applyWr (rowActive r) (Wr.row r false) = startPins := by
  apply Pins.ext
  · funext r2
    by_cases h : r2 = r <;> simp [applyWr, rowActive, startPins, h]
  · rfl

lemma rowWrites_trace (w : Grid) (r : Fin 8) :
    (rowWrites w r).foldl applyWr startPins = startPins ∧
    ∀ p ∈ traceFrom startPins (rowWrites w r), scanInv w p := by
  have hcol := colLoop_trace w r (List.finRange 8)
  constructor
  · have h0 : (rowWrites w r).foldl applyWr startPins =
        ((List.finRange 8).flatMap (colWrites w r) ++ [Wr.row r false]).foldl applyWr
          (applyWr startPins (Wr.row r true)) := rfl
    rw [h0, applyWr_start_row, List.foldl_append, hcol.1]
    exact applyWr_row_off r
  · intro p hp
    have hrw : traceFrom startPins (rowWrites w r) =
        startPins :: traceFrom (applyWr startPins (Wr.row r true))
          ((List.finRange 8).flatMap (colWrites w r) ++ [Wr.row r false]) := rfl
    rw [hrw, applyWr_start_row] at hp
    rcases List.mem_cons.mp hp with rfl | hp
    · exact scanInv_startPins w
    · rw [mem_traceFrom_append] at hp
      rcases hp with hp | hp
      · exact hcol.2 p hp
      · rw [hcol.1] at hp
        have htl : traceFrom (rowActive r) [Wr.row r false] =
            [rowActive r, applyWr (rowActive r) (Wr.row r false)] := rfl
        rw [htl, applyWr_row_off] at hp
        simp only [List.mem_cons, List.not_mem_nil, or_false] at hp
        rcases hp with rfl | rfl
        · exact scanInv_rowActive w r
        · exact scanInv_startPins w

lemma dispLoop_trace (w : Grid) (rs : List (Fin 8)) :
    (rs.flatMap (rowWrites w)).foldl applyWr startPins = startPins ∧
    ∀ p ∈ traceFrom startPins (rs.flatMap (rowWrites w)), scanInv w p := by
  induction rs with
  | nil =>
    refine ⟨rfl, ?_⟩
    intro p hp
    simp only [List.flatMap_nil, traceFrom, List.mem_singleton] at hp
    subst hp
    exact scanInv_startPins w
  | cons r rs ih =>
    rw [List.flatMap_cons]
    constructor
    · rw [List.foldl_append, (rowWrites_trace w r).1]
      exact ih.1
    · intro p hp
      rw [mem_traceFrom_append] at hp
      rcases hp with hp | hp
      · exact (rowWrites_trace w r).2 p hp
      · rw [(rowWrites_trace w r).1] at hp
        exact ih.2 p hp

end Lemmas

/-- Claim C2: for every neighbour count `n` in 0..8 and every current cell
state, the three-case switch of `updateWorld` (`nextState`) agrees with the
four canonical Game of Life rules from the header comment (`canonicalRule`). -/
theorem nextState_eq_canonical (cur : Bool) (n : Nat) (h : n ≤ 8) :
    nextState cur n = canonicalRule cur n := by
  interval_cases n <;> cases cur <;> rfl

/-- Witness for C2 at `cur = false`, `n = 3`. -/
theorem nextState_eq_canonical_witness :
    3 ≤ 8 ∧ nextState false 3 = canonicalRule false 3 :=
  ⟨by decide, nextState_eq_canonical false 3 (by decide)⟩

/-- Claim C3: after one invocation of `updateWorld`, every cell of the
resulting grid equals the pure per-cell transition function applied to the
complete pre-invocation grid — the next generation is computed into the
separate `nextWorld` buffer before `world` is mutated, so no cell is computed
from an already-updated cell. -/
theorem updateWorld_from_pre_grid (w : Grid) (r c : Fin 8) :
    updateWorld w r c = transition w r c := by
  simp only [updateWorld]
  rw [writeAll_eq, if_pos (mem_allPairs r c), writeAll_eq, if_pos (mem_allPairs r c)]

/-- Claim C4: `countNeighbors` is toroidal at every edge and corner: for any
grid and any in-bounds `(r, c)` it sums exactly the eight cells at the
wrapped coordinates `(r ± 1 mod 8, c ± 1 mod 8)` (excluding `(r, c)` itself),
and in particular at `(0, 0)` it sums the cells at `(7, 7)`, `(7, 0)`,
`(7, 1)`, `(0, 7)`, `(0, 1)`, `(1, 7)`, `(1, 0)` and `(1, 1)`. -/
theorem countNeighbors_toroidal (w : Grid) (r c : Fin 8) :
    countNeighbors w (r.val : Int) (c.val : Int) = some (
      (w (wrapSpec ((r.val : Int) - 1)) (wrapSpec ((c.val : Int) - 1))).toNat +
      (w (wrapSpec ((r.val : Int) - 1)) (wrapSpec (c.val : Int))).toNat +
      (w (wrapSpec ((r.val : Int) - 1)) (wrapSpec ((c.val : Int) + 1))).toNat +
      (w (wrapSpec (r.val : Int)) (wrapSpec ((c.val : Int) - 1))).toNat +
      (w (wrapSpec (r.val : Int)) (wrapSpec ((c.val : Int) + 1))).toNat +
      (w (wrapSpec ((r.val : Int) + 1)) (wrapSpec ((c.val : Int) - 1))).toNat +
      (w (wrapSpec ((r.val : Int) + 1)) (wrapSpec (c.val : Int))).toNat +
      (w (wrapSpec ((r.val : Int) + 1)) (wrapSpec ((c.val : Int) + 1))).toNat) ∧
    countNeighbors w 0 0 = some (
      (w 7 7).toNat + (w 7 0).toNat + (w 7 1).toNat +
      (w 0 7).toNat + (w 0 1).toNat +
      (w 1 7).toNat + (w 1 0).toNat + (w 1 1).toNat) := by
  constructor
  · rw [countNeighbors_eq,
      finWrapRow_eq_spec ((r.val : Int) - 1) (by omega),
      finWrapRow_eq_spec (r.val : Int) (by omega),
      finWrapRow_eq_spec ((r.val : Int) + 1) (by omega),
      finWrapCol_eq_spec ((c.val : Int) - 1) (by omega),
      finWrapCol_eq_spec (c.val : Int) (by omega),
      finWrapCol_eq_spec ((c.val : Int) + 1) (by omega)]
  · rw [countNeighbors_eq,
      (by decide : finWrapRow (0 - 1 : Int) = (7 : Fin 8)),
      (by decide : finWrapRow (0 : Int) = (0 : Fin 8)),
      (by decide : finWrapRow (0 + 1 : Int) = (1 : Fin 8)),
      (by decide : finWrapCol (0 - 1 : Int) = (7 : Fin 8)),
      (by decide : finWrapCol (0 : Int) = (0 : Fin 8)),
      (by decide : finWrapCol (0 + 1 : Int) = (1 : Fin 8))]

/-- Claim C5: `countNeighbors` never counts the cell `(r, c)` itself — its
result does not depend on the value stored at `(r, c)` — and it always
returns a defined value in `[0, 8]`. -/
theorem countNeighbors_excludes_self (w : Grid) (r c : Fin 8) (b : Bool) :
    countNeighbors (updateGrid w r c b) (r.val : Int) (c.val : Int) =
      countNeighbors w (r.val : Int) (c.val : Int) ∧
    ∃ n, countNeighbors w (r.val : Int) (c.val : Int) = some n ∧ n ≤ 8 := by
  have hu : ∀ (y x : Fin 8), y ≠ r ∨ x ≠ c → updateGrid w r c b y x = w y x := by
    intro y x h
    have hne : ¬(y = r ∧ x = c) := by tauto
    simp only [updateGrid, if_neg hne]
  constructor
  · rw [countNeighbors_eq, countNeighbors_eq,
      hu _ _ (Or.inl (finWrapRow_sub_ne r)),
      hu _ _ (Or.inl (finWrapRow_sub_ne r)),
      hu _ _ (Or.inl (finWrapRow_sub_ne r)),
      hu _ _ (Or.inr (finWrapCol_sub_ne c)),
      hu _ _ (Or.inr (finWrapCol_add_ne c)),
      hu _ _ (Or.inl (finWrapRow_add_ne r)),
      hu _ _ (Or.inl (finWrapRow_add_ne r)),
      hu _ _ (Or.inl (finWrapRow_add_ne r))]
  · refine ⟨_, countNeighbors_eq w (r.val : Int) (c.val : Int), ?_⟩
    have hb : ∀ x : Bool, x.toNat ≤ 1 := fun x => by cases x <;> decide
    have t1 := hb (w (finWrapRow ((r.val : Int) - 1)) (finWrapCol ((c.val : Int) - 1)))
    have t2 := hb (w (finWrapRow ((r.val : Int) - 1)) (finWrapCol (c.val : Int)))
    have t3 := hb (w (finWrapRow ((r.val : Int) - 1)) (finWrapCol ((c.val : Int) + 1)))
    have t4 := hb (w (finWrapRow (r.val : Int)) (finWrapCol ((c.val : Int) - 1)))
    have t5 := hb (w (finWrapRow (r.val : Int)) (finWrapCol ((c.val : Int) + 1)))
    have t6 := hb (w (finWrapRow ((r.val : Int) + 1)) (finWrapCol ((c.val : Int) - 1)))
    have t7 := hb (w (finWrapRow ((r.val : Int) + 1)) (finWrapCol (c.val : Int)))
    have t8 := hb (w (finWrapRow ((r.val : Int) + 1)) (finWrapCol ((c.val : Int) + 1)))
    omega

/-- Claim C10: under the precondition `0 ≤ r, c ≤ 7`, every access to `world`
inside `countNeighbors` happens at wrapped indices in `[0, 7]`, so the
`none` (out-of-bounds) branch of the total embedding is unreachable and the
whole count is defined. -/
theorem countNeighbors_inbounds (w : Grid) (r c i j : Int)
    (hr1 : 0 ≤ r) (hr2 : r ≤ 7) (hc1 : 0 ≤ c) (hc2 : c ≤ 7)
    (hi1 : r - 1 ≤ i) (hi2 : i ≤ r + 1) (hj1 : c - 1 ≤ j) (hj2 : j ≤ c + 1) :
    (0 ≤ wrapRow i ∧ wrapRow i ≤ 7 ∧ 0 ≤ wrapCol j ∧ wrapCol j ≤ 7) ∧
    (worldAt w (wrapRow i) (wrapCol j)).isSome = true ∧
    (countNeighbors w r c).isSome = true := by
  refine ⟨⟨wrapRow_nonneg i, by have := wrapRow_lt i; omega,
    wrapCol_nonneg j, by have := wrapCol_lt j; omega⟩, ?_, ?_⟩
  · rw [worldAt_wrap]; rfl
  · rw [countNeighbors_eq]; rfl

/-- Witness for C10 at the corner `(0, 0)` with offsets `i = j = -1`. -/
theorem countNeighbors_inbounds_witness :
    (0 ≤ wrapRow (-1) ∧ wrapRow (-1) ≤ 7 ∧ 0 ≤ wrapCol (-1) ∧ wrapCol (-1) ≤ 7) ∧
    (worldAt deadGrid (wrapRow (-1)) (wrapCol (-1))).isSome = true ∧
    (countNeighbors deadGrid 0 0).isSome = true :=
  countNeighbors_inbounds deadGrid 0 0 (-1) (-1) (by decide) (by decide) (by decide)
    (by decide) (by decide) (by decide) (by decide) (by decide)

set_option maxRecDepth 100000 in
set_option maxHeartbeats 2000000 in
/-- Claim C6: seeding the grid with the 5-cell glider and applying
`updateWorld` four times yields exactly the glider translated by `(1, 1)`
modulo 8 in both coordinates. -/
theorem glider_translates :
    updateWorld (updateWorld (updateWorld (updateWorld glider))) =
      fun r c => glider (r - 1) (c - 1) := by
  have h1 : updateWorld glider = gliderGen1 := by decide
  have h2 : updateWorld gliderGen1 = gliderGen2 := by decide
  have h3 : updateWorld gliderGen2 = gliderGen3 := by decide
  have h4 : updateWorld gliderGen3 = fun r c => glider (r - 1) (c - 1) := by decide
  rw [h1, h2, h3, h4]

set_option maxRecDepth 100000 in
set_option maxHeartbeats 1000000 in
/-- Claim C7: the 2x2 all-alive block (with every other cell dead) is a still
life: one application of `updateWorld` returns the identical grid. -/
theorem block_still_life : updateWorld block = block := by decide

/-- Claim C9: the pause handler flips `paused` (two firings restore the
state), the step handler sets `step` exactly when `paused` is true and is a
no-op otherwise, and neither handler touches the grid, `lastTime`, or the
other flag. -/
theorem handlers_only_touch_flags (s : SysState) :
    togglePause (togglePause s) = s ∧
    (togglePause s).paused = !s.paused ∧
    (togglePause s).world = s.world ∧
    (togglePause s).lastTime = s.lastTime ∧
    (togglePause s).step = s.step ∧
    (setStep s).step = (s.paused || s.step) ∧
    (setStep s).paused = s.paused ∧
    (setStep s).world = s.world ∧
    (setStep s).lastTime = s.lastTime := by
  obtain ⟨w, t, p, st⟩ := s
  refine ⟨?_, rfl, rfl, rfl, rfl, ?_, ?_, ?_, ?_⟩ <;>
    cases p <;> simp [togglePause, setStep]

set_option maxRecDepth 100000 in
set_option maxHeartbeats 1000000 in
/-- Claim C1 (divergence witness): the source's `loop()` never reads the
`paused` and `step` flags.  In a paused state holding `oneCell` with no step
requested, a tick that reaches the 1-second period still mutates the grid
(the lone cell dies), and in a paused state with a step requested the tick
does not clear the `step` flag. -/
theorem loop_ignores_pause_flags :
    pausedNoStep.paused = true ∧ pausedNoStep.step = false ∧
    (loop 1000 pausedNoStep).world ≠ pausedNoStep.world ∧
    pausedWithStep.step = true ∧
    (loop 1000 pausedWithStep).step = true := by
  refine ⟨rfl, rfl, ?_, rfl, rfl⟩
  decide

/-- Claim C8: along the whole sequence of pin writes of one `dispWorld`
invocation (started from the all-off configuration), at most one row line is
ever HIGH (each row is deactivated before the next is activated), a column
line is LOW only inside the active window of some row, and then only for a
live cell of that row — so whenever no row is active all column lines are at
the off (HIGH) level, a cell is lit only while its row is HIGH and its
column LOW, and the scan ends back in the all-off configuration. -/
theorem dispWorld_scan_invariant (w : Grid) (p : Pins)
    (hp : p ∈ traceFrom startPins (dispWorld w)) :
    scanInv w p ∧
    (∀ r c, p.rows r = true → p.cols c = false → w r c = true) ∧
    (dispWorld w).foldl applyWr startPins = startPins := by
  have h := dispLoop_trace w (List.finRange 8)
  have hs : scanInv w p := h.2 p hp
  refine ⟨hs, ?_, h.1⟩
  intro r c hr hc
  obtain ⟨r2, hr2, hw2⟩ := hs.2 c hc
  rwa [hs.1 r r2 hr hr2]

/-- Witness for C8 at the all-dead grid and the initial pin state. -/
theorem dispWorld_scan_invariant_witness :
    scanInv deadGrid startPins ∧
    (∀ r c, startPins.rows r = true → startPins.cols c = false → deadGrid r c = true) ∧
    (dispWorld deadGrid).foldl applyWr startPins = startPins :=
  dispWorld_scan_invariant deadGrid startPins
    (self_mem_traceFrom startPins (dispWorld deadGrid))

end GOL
